import Mathlib

/-!
Verification development for the MeetingAssistant orchestration core:
the API key pool (`infrastructure/external_services/openai/api_key_pool.py`),
the retrying request pipeline (`infrastructure/external_services/openai/openai_client.py`),
the audio splitter (`infrastructure/file_system/audio_splitter.py`),
the transcript merge step of `application/services/meeting_service.py`,
and the report prompt construction of `openai_client.generate_report`.

Python integers are modelled as `Int` (arbitrary precision); sizes and
counts that are always non-negative in the source are modelled as `Nat`.
Strings are Lean `String`s.  Async effects are modelled by explicit state
passing: the pool is a list of `ApiKeyInfo` in dict insertion order (the
dict keys `0, 1, 2, ...` coincide with list positions), and the request
pipeline is a state-passing loop that records its observable actions
(sleeps, HTTP calls, pool bookkeeping) in an event trace.
-/

/-- `ApiKeyInfo` from `api_key_pool.py`: per-credential bookkeeping. -/
structure ApiKeyInfo where
  key : String
  index : Nat
  active_requests : Int
  total_requests : Int
  failed_requests : Int
  is_blocked : Bool
deriving DecidableEq, Repr

/-- Pair each element of a list with its position, starting at `n`.
Models iteration over the pool dict `{0: info0, 1: info1, ...}` with its keys. -/
def idxFrom {α : Type} : Nat → List α → List (Nat × α)
  | _, [] => []
  | n, a :: as => (n, a) :: idxFrom (n + 1) as

/-- Python's `min(iterable, key=lambda k: k.active_requests)` keeps the first
element among ties: it replaces the current best only on strict `<`. -/
def firstMinAux (best : Nat × ApiKeyInfo) : List (Nat × ApiKeyInfo) → Nat × ApiKeyInfo
  | [] => best
  | p :: ps => firstMinAux (if p.2.active_requests < best.2.active_requests then p else best) ps

/-- The candidate set of `get_available_key`, with dict keys: the
non-blocked credentials, or all credentials when every one is blocked
(`available_keys` in the source). -/
def poolCands (pool : List ApiKeyInfo) : List (Nat × ApiKeyInfo) :=
  let enum := idxFrom 0 pool
  let available := enum.filter (fun q => !q.2.is_blocked)
  if available.isEmpty then enum else available

/-- `min(available_keys.values(), key=lambda k: k.active_requests)`. -/
def selectBest : List (Nat × ApiKeyInfo) → Option (Nat × ApiKeyInfo)
  | [] => none
  | c :: cs => some (firstMinAux c cs)

/-- `ApiKeyPool.get_available_key`: among non-blocked credentials (or all of
them when every credential is blocked) select the one with minimum
`active_requests`, increment its `active_requests` and `total_requests`,
and return its key string together with the updated pool. -/
def get_available_key (pool : List ApiKeyInfo) : Option (String × List ApiKeyInfo) :=
  if pool.isEmpty then none
  else
    match selectBest (poolCands pool) with
    | none => none
    | some best =>
      let info := best.2
      let updated := { info with active_requests := info.active_requests + 1,
                                 total_requests := info.total_requests + 1 }
      some (info.key, pool.set best.1 updated)

/-- `ApiKeyPool.release_key`: decrement `active_requests` of the first
credential whose key string matches, floored at 0 (`max(0, n - 1)`); no-op
when no credential matches. -/
def release_key : List ApiKeyInfo → String → List ApiKeyInfo
  | [], _ => []
  | info :: rest, k =>
    if info.key = k then
      { info with active_requests := max 0 (info.active_requests - 1) } :: rest
    else
      info :: release_key rest k

/-- `ApiKeyPool.mark_key_failed`: on the first matching credential increment
`failed_requests` and, when `block_temporarily`, set `is_blocked`. -/
def mark_key_failed : List ApiKeyInfo → String → Bool → List ApiKeyInfo
  | [], _, _ => []
  | info :: rest, k, block_temporarily =>
    if info.key = k then
      { info with failed_requests := info.failed_requests + 1,
                  is_blocked := if block_temporarily then true else info.is_blocked } :: rest
    else
      info :: mark_key_failed rest k block_temporarily

/-- `ApiKeyPool.unblock_key`: clear `is_blocked` on the first matching
credential (the source only writes when it was blocked; the resulting state
is `false` either way). -/
def unblock_key : List ApiKeyInfo → String → List ApiKeyInfo
  | [], _ => []
  | info :: rest, k =>
    if info.key = k then
      { info with is_blocked := false } :: rest
    else
      info :: unblock_key rest k

/-- Outcome of the body wrapped by the `acquire_key` context manager:
either a normal return or a raised exception / cancellation (both unwind
through the `finally` block). -/
inductive BodyOutcome (α : Type)
  | normal (a : α)
  | raised (e : String)
deriving DecidableEq

/-- Result of running `ApiKeyPool.acquire_key` around a body. -/
inductive ScopedResult (α : Type)
  | completed (r : BodyOutcome α)
  | noKey
deriving DecidableEq

/-- `ApiKeyPool.acquire_key`: acquire a key via `get_available_key`; if the
result is falsy (`None` or the empty string) raise `ApiKeyNotFoundException`
without releasing; otherwise run the body and release the key in `finally`,
on every exit path (normal return, exception, cancellation). -/
def acquire_key_run {α : Type} (pool : List ApiKeyInfo)
    (body : String → List ApiKeyInfo → BodyOutcome α × List ApiKeyInfo) :
    ScopedResult α × List ApiKeyInfo :=
  match get_available_key pool with
  | none => (.noKey, pool)
  | some (key, pool1) =>
    if key = "" then
      (.noKey, pool1)
    else
      let out := body key pool1
      (.completed out.1, release_key out.2 key)

/-- The last exception recorded by the retry loop of `_make_request`
(`last_exception` starts as `None`; only `ApiRateLimitException` and
`ApiRequestException` are ever assigned to it). -/
inductive LastExc
  | noExc
  | rateLimit (msg : String)
  | requestErr (msg : String)
deriving DecidableEq, Repr

/-- Typed failures escaping `_make_request`: `ApiRateLimitException`,
`ApiRequestException`, `ApiKeyNotFoundException`, and the generic
`ApiException` raised after the loop, which wraps `last_exception`. -/
inductive ReqError
  | rateLimit (msg : String)
  | requestErr (msg : String)
  | keyNotFound (msg : String)
  | exhausted (last : LastExc)
deriving DecidableEq, Repr

/-- One HTTP attempt either yields a response (status, decoded error
message for the `error.message` field, decoded success payload) or raises
`aiohttp.ClientError`. -/
inductive HttpAttemptResult
  | response (status : Nat) (error_msg : String) (payload : String)
  | clientError (msg : String)
deriving DecidableEq

/-- Observable actions of a `_make_request` run, in program order.
Sleep durations are recorded in milliseconds (the source divides by 1000
to pass seconds to `asyncio.sleep`). -/
inductive PoolEvent
  | acquired (key : String)
  | slept (ms : Nat)
  | httpCall (key : String)
  | markFailed (key : String) (block : Bool)
  | unblocked (key : String)
  | released (key : String)
deriving DecidableEq, Repr

/-- Mutable state threaded through the retry loop of `_make_request`. -/
structure RunState where
  pool : List ApiKeyInfo
  used_keys : List String
  http_count : Nat
  events : List PoolEvent
  last_exception : LastExc
deriving DecidableEq

/-- `OPENAI_RETRY_ATTEMPTS` and `OPENAI_RETRY_DELAY_MS`. -/
structure PipelineConfig where
  retry_attempts : Nat
  retry_delay_ms : Nat
deriving DecidableEq

/-- The retry loop of `OpenAIClient._make_request`, one recursive step per
`for attempt in range(self.retry_attempts)` iteration.  `remaining + 1` is
the number of loop iterations still to run and `attempt` is the 0-based
iteration index, so `remaining = 0` exactly when
`attempt == self.retry_attempts - 1`.  `responses n` is the outcome of the
`n`-th HTTP request actually performed. -/
def runAttempts (cfg : PipelineConfig) (responses : Nat → HttpAttemptResult) :
    Nat → Nat → RunState → Except ReqError String × RunState
  | 0, _, st => (.error (.exhausted st.last_exception), st)
  | remaining + 1, attempt, st =>
    match get_available_key st.pool with
    | none =>
      -- acquire_key raises ApiKeyNotFoundException; it is not caught by the loop
      (.error (.keyNotFound "Нет доступных API ключей"), st)
    | some (key, pool1) =>
      let st1 : RunState := { st with pool := pool1, events := st.events ++ [PoolEvent.acquired key] }
      if key = "" then
        (.error (.keyNotFound "Нет доступных API ключей"), st1)
      else if st1.used_keys.contains key then
        -- key already used in this call: sleep inside the context, then release on exit
        let st2 := { st1 with events := st1.events ++ [PoolEvent.slept (cfg.retry_delay_ms * (attempt + 1))] }
        let st3 := { st2 with pool := release_key st2.pool key,
                              events := st2.events ++ [PoolEvent.released key] }
        runAttempts cfg responses remaining (attempt + 1) st3
      else
        let st2 := { st1 with used_keys := st1.used_keys ++ [key] }
        let res := responses st2.http_count
        let st3 := { st2 with http_count := st2.http_count + 1,
                              events := st2.events ++ [PoolEvent.httpCall key] }
        match res with
        | .clientError msg =>
          -- the exception unwinds through acquire_key (release), then is caught
          let st4 := { st3 with pool := release_key st3.pool key,
                                events := st3.events ++ [PoolEvent.released key] }
          let st5 := { st4 with last_exception := .requestErr ("Ошибка соединения: " ++ msg) }
          if remaining = 0 then
            (.error (.requestErr ("Ошибка соединения: " ++ msg)), st5)
          else
            let st6 := { st5 with events := st5.events ++ [PoolEvent.slept (cfg.retry_delay_ms * (attempt + 1))] }
            runAttempts cfg responses remaining (attempt + 1) st6
        | .response status error_msg payload =>
          if status = 429 then
            let st4 := { st3 with pool := mark_key_failed st3.pool key true,
                                  events := st3.events ++ [PoolEvent.markFailed key true] }
            if remaining = 0 then
              -- raise ApiRateLimitException; release on context exit; except re-raises
              let st5 := { st4 with pool := release_key st4.pool key,
                                    events := st4.events ++ [PoolEvent.released key] }
              let st6 := { st5 with last_exception := .rateLimit "Превышен лимит запросов к OpenAI API" }
              (.error (.rateLimit "Превышен лимит запросов к OpenAI API"), st6)
            else
              -- sleep inside the context, release on exit, continue
              let st5 := { st4 with events := st4.events ++ [PoolEvent.slept (cfg.retry_delay_ms * (attempt + 1))] }
              let st6 := { st5 with pool := release_key st5.pool key,
                                    events := st5.events ++ [PoolEvent.released key] }
              runAttempts cfg responses remaining (attempt + 1) st6
          else if 400 ≤ status then
            let st4 := { st3 with pool := mark_key_failed st3.pool key false,
                                  events := st3.events ++ [PoolEvent.markFailed key false] }
            -- raise ApiRequestException; release on context exit; except catches it
            let st5 := { st4 with pool := release_key st4.pool key,
                                  events := st4.events ++ [PoolEvent.released key] }
            let st6 := { st5 with last_exception := .requestErr ("Ошибка API: " ++ error_msg) }
            if remaining = 0 then
              (.error (.requestErr ("Ошибка API: " ++ error_msg)), st6)
            else
              let st7 := { st6 with events := st6.events ++ [PoolEvent.slept (cfg.retry_delay_ms * (attempt + 1))] }
              runAttempts cfg responses remaining (attempt + 1) st7
          else
            -- success: unblock, return decoded payload, release on context exit
            let st4 := { st3 with pool := unblock_key st3.pool key,
                                  events := st3.events ++ [PoolEvent.unblocked key] }
            let st5 := { st4 with pool := release_key st4.pool key,
                                  events := st4.events ++ [PoolEvent.released key] }
            (.ok payload, st5)

/-- `OpenAIClient._make_request` over a given initial pool. -/
def make_request (cfg : PipelineConfig) (pool : List ApiKeyInfo)
    (responses : Nat → HttpAttemptResult) : Except ReqError String × RunState :=
  runAttempts cfg responses cfg.retry_attempts 0 ⟨pool, [], 0, [], .noExc⟩

/-- `AudioSplitter.MAX_FILE_SIZE_BYTES = 20 * 1024 * 1024`. -/
def MAX_FILE_SIZE_BYTES : Nat := 20 * 1024 * 1024

/-- `int(self.MAX_FILE_SIZE_BYTES * 0.9)`.  `20971520 * 0.9 = 18874368` is
an exact integer (both in the reals and in double-precision evaluation), so
the truncation equals the exact product `MAX_FILE_SIZE_BYTES * 9 / 10`. -/
def bytes_per_chunk : Nat := MAX_FILE_SIZE_BYTES * 9 / 10

/-- WAV container parameters read by `wave.open(...).getparams()`. -/
structure WavParams where
  sampwidth : Nat
  nchannels : Nat
  nframes : Nat
deriving DecidableEq

/-- `params.sampwidth * params.nchannels` — bytes per frame. -/
def frame_byte_size (params : WavParams) : Nat :=
  params.sampwidth * params.nchannels

/-- Python's `f"{n:03d}"` for a non-negative `n`. -/
def pad3 (n : Nat) : String :=
  if n < 10 then "00" ++ toString n
  else if n < 100 then "0" ++ toString n
  else toString n

/-- The frame windows of the `while current_frame < total_frames` loop in
`split_audio_file`: from `current`, windows of `frames_per_chunk` frames,
the last one clipped at `total_frames`.  The source loop does not terminate
when `frames_per_chunk = 0`; the guard `0 < frames_per_chunk` makes the
model total and is assumed in every theorem about the splitting branch.
Each iteration advances `current` by at least one frame, so
`total_frames - current` bounds the remaining iterations and serves as
structural fuel. -/
def chunkRangesGo (frames_per_chunk total_frames : Nat) : Nat → Nat → List (Nat × Nat)
  | 0, _ => []
  | fuel + 1, current =>
    if current < total_frames ∧ 0 < frames_per_chunk then
      (current, min (current + frames_per_chunk) total_frames) ::
        chunkRangesGo frames_per_chunk total_frames fuel
          (min (current + frames_per_chunk) total_frames)
    else []

def chunkRanges (frames_per_chunk total_frames current : Nat) : List (Nat × Nat) :=
  chunkRangesGo frames_per_chunk total_frames (total_frames - current) current

/-- One chunk file written by `split_audio_file`: its path and the frame
window `[framesStart, framesEnd)` of the source it contains. -/
structure ChunkFile where
  path : String
  framesStart : Nat
  framesEnd : Nat
deriving DecidableEq

/-- `meeting_prefix`: `f"{meeting_id[:8]}_"` when a truthy `meeting_id` was
passed, `""` otherwise. -/
def meetingTag : Option String → String
  | none => ""
  | some m => if m = "" then "" else String.mk (m.data.take 8) ++ "_"

/-- Chunk file path `base_dir / f"{meeting_prefix}{base_name}_part{num:03d}.wav"`. -/
def chunkPath (base_dir base_name : String) (meeting_id : Option String) (num : Nat) : String :=
  base_dir ++ "/" ++ meetingTag meeting_id ++ base_name ++ "_part" ++ pad3 num ++ ".wav"

/-- `AudioSplitter.split_audio_file`.  `file_size` is `os.path.getsize` of
the source; `base_dir`/`base_name` are `Path(audio_file_path).parent/.stem`.
Returns the list of paths the function returns together with the list of
chunk files it writes (empty when no split happens). -/
def split_audio_file (audio_file_path base_dir base_name : String)
    (meeting_id : Option String) (file_size : Nat) (params : WavParams) :
    List String × List ChunkFile :=
  if file_size ≤ MAX_FILE_SIZE_BYTES then
    ([audio_file_path], [])
  else
    let frames_per_chunk := bytes_per_chunk / frame_byte_size params
    let ranges := chunkRanges frames_per_chunk params.nframes 0
    let chunks := (idxFrom 0 ranges).map (fun p =>
      { path := chunkPath base_dir base_name meeting_id (p.1 + 1),
        framesStart := p.2.1, framesEnd := p.2.2 : ChunkFile })
    (chunks.map (fun c => c.path), chunks)

/-- Python's `"".join(parts)`. -/
def joinStrings : List String → String
  | [] => ""
  | s :: rest => s ++ joinStrings rest

/-- The transcript merge step of `MeetingService.process_meeting`
(lines 138–151): with more than one part, prepend `--- Часть N ---`
headers (the first without a leading blank line) and join; with one part
return it unchanged; with none return `""`. -/
def mergeTranscriptions (transcriptions : List String) : String :=
  if transcriptions.length > 1 then
    joinStrings ((idxFrom 0 transcriptions).map (fun p =>
      if p.1 = 0 then
        "--- Часть " ++ toString (p.1 + 1) ++ " ---\n\n" ++ p.2
      else
        "\n\n--- Часть " ++ toString (p.1 + 1) ++ " ---\n\n" ++ p.2))
  else
    match transcriptions with
    | [] => ""
    | t :: _ => t

/-- The visible per-part separator header of the amended claim:
`--- Часть N ---` (the code's Russian spelling of `--- Part N ---`). -/
def partHeader (n : Nat) : String :=
  "--- Часть " ++ toString n ++ " ---"

/-- The amended claim's assembled document, stated in the spec's words as a
refinement target for `mergeTranscriptions`: each part is preceded by its
header, parts appear in the given order numbered from 1, and every header
after the first is set off by a blank line. -/
def specAssembleFrom : Nat → List String → String
  | _, [] => ""
  | n, t :: rest =>
    (if n = 1 then "" else "\n\n") ++ partHeader n ++ "\n\n" ++ t
      ++ specAssembleFrom (n + 1) rest

/-- `language_names.get(language, language)` in `generate_report`. -/
def languageNameReport (language : String) : String :=
  if language = "ru" then "русском"
  else if language = "pl" then "польском"
  else if language = "en" then "английском"
  else language

/-- `multipart_note` in `generate_report`. -/
def multipartNote (is_multipart : Bool) : String :=
  if is_multipart then
    "\n\nВАЖНО: Эта транскрипция состоит из нескольких частей одного совещания, объединенных в хронологическом порядке. Все части относятся к одному и тому же совещанию. Создай единый отчет, объединяющий информацию из всех частей."
  else ""

/-- The fixed prompt text up to and including `языке.` (everything before
`{multipart_note}` in the f-string of `generate_report`). -/
def reportPromptHead (language : String) : String :=
  "На основе следующей транскрипции совещания и примера структуры отчета, создай полный отчет о совещании на "
    ++ languageNameReport language ++ " языке."

/-- The fixed prompt text after `{multipart_note}` in `generate_report`,
with the template and transcription spliced in. -/
def reportPromptTail (transcription template : String) : String :=
  "\n\nПример структуры отчета:\n" ++ template
    ++ "\n\nТранскрипция совещания:\n" ++ transcription
    ++ "\n\nСоздай отчет, следуя структуре примера, но используя информацию из транскрипции."

/-- The full prompt built by `OpenAIClient.generate_report` and sent as the
single user message of the chat/completions request. -/
def reportPrompt (transcription template language : String) (is_multipart : Bool) : String :=
  "На основе следующей транскрипции совещания и примера структуры отчета, создай полный отчет о совещании на "
    ++ languageNameReport language ++ " языке." ++ multipartNote is_multipart
    ++ "\n\nПример структуры отчета:\n" ++ template
    ++ "\n\nТранскрипция совещания:\n" ++ transcription
    ++ "\n\nСоздай отчет, следуя структуре примера, но используя информацию из транскрипции."

/-- `startsWithChars l p` : is `p` a prefix of `l`? -/
def startsWithChars : List Char → List Char → Bool
  | _, [] => true
  | [], _ :: _ => false
  | a :: as, b :: bs => a == b && startsWithChars as bs

/-- Does the pattern occur as a contiguous substring? -/
def containsChars (pat : List Char) : List Char → Bool
  | [] => startsWithChars [] pat
  | a :: t => startsWithChars (a :: t) pat || containsChars pat t

/-- Substring occurrence on strings. -/
def containsStr (s pat : String) : Bool :=
  containsChars pat.data s.data

/-- The remainder after the first occurrence of the pattern, if any. -/
def afterMatch (pat : List Char) : List Char → Option (List Char)
  | [] => if startsWithChars [] pat then some [] else none
  | a :: t =>
    if startsWithChars (a :: t) pat then some ((a :: t).drop pat.length)
    else afterMatch pat t

/-- Do the patterns occur in the given order, without overlap? -/
def chaseAll : List Char → List (List Char) → Bool
  | _, [] => true
  | l, p :: ps =>
    match afterMatch p l with
    | none => false
    | some l2 => chaseAll l2 ps

/-- Ordered (non-overlapping) occurrence of several patterns in a string. -/
def containsInOrderStr (s : String) (pats : List String) : Bool :=
  chaseAll s.data (pats.map (fun p => p.data))

/-- Decidable equality for `Except`, needed to evaluate concrete pipeline
runs. -/
instance {e a : Type} [DecidableEq e] [DecidableEq a] : DecidableEq (Except e a) := fun x y =>
  match x, y with
  | .ok u, .ok v => if h : u = v then isTrue (h ▸ rfl) else isFalse (fun hc => h (Except.ok.inj hc))
  | .ok _, .error _ => isFalse (fun hc => Except.noConfusion hc)
  | .error _, .ok _ => isFalse (fun hc => Except.noConfusion hc)
  | .error u, .error v =>
    if h : u = v then isTrue (h ▸ rfl) else isFalse (fun hc => h (Except.error.inj hc))

/-- The key strings of the pool are pairwise distinct (true for keys loaded
by `_load_keys`, which come from distinct non-empty environment variables). -/
def keysNodup (pool : List ApiKeyInfo) : Prop :=
  (pool.map (fun c => c.key)).Nodup

/-! ### Concrete fixtures used by witnesses and counterexamples -/

/-- A pool with one credential, all counters zero. -/
def poolOne : List ApiKeyInfo := [⟨"k1", 0, 0, 0, 0, false⟩]

/-- A pool with three credentials, all counters zero. -/
def poolThree : List ApiKeyInfo :=
  [⟨"k1", 0, 0, 0, 0, false⟩, ⟨"k2", 1, 0, 0, 0, false⟩, ⟨"k3", 2, 0, 0, 0, false⟩]

/-- A pool exercising load and blocking: `"a"` loaded, `"b"` and `"c"` tied
on load with `"c"` blocked. -/
def poolMixed : List ApiKeyInfo :=
  [⟨"a", 0, 2, 5, 0, false⟩, ⟨"b", 1, 1, 4, 0, false⟩, ⟨"c", 2, 1, 3, 0, true⟩]

/-- Three attempts, 1000 ms base delay (the source defaults). -/
def cfgThree : PipelineConfig := ⟨3, 1000⟩

/-- Every HTTP attempt answers status 500 with error message `"boom"`. -/
def respServerErr : Nat → HttpAttemptResult := fun _ => .response 500 "boom" ""

/-- 429 on the first two HTTP attempts, success on the third. -/
def respTwo429ThenOk : Nat → HttpAttemptResult := fun n =>
  if n = 0 then .response 429 "" ""
  else if n = 1 then .response 429 "" ""
  else .response 200 "" "payload"

/-- Every HTTP attempt answers 429. -/
def respAlways429 : Nat → HttpAttemptResult := fun _ => .response 429 "" ""

/-- The keys of the `httpCall` events of a trace: the credentials that
actually carried an HTTP request. -/
def httpKeys (evs : List PoolEvent) : List String :=
  evs.filterMap (fun e => match e with | .httpCall k => some k | _ => none)

/-! ### Helper lemmas: indexed iteration and Python `min` -/

theorem idxFrom_mem_exists {α : Type} {l : List α} :
    ∀ {n : Nat} {p : Nat × α}, p ∈ idxFrom n l → ∃ j, p.1 = n + j ∧ l[j]? = some p.2 := by
  induction l with
  | nil => intro n p h; simp [idxFrom] at h
  | cons a as ih =>
    intro n p h
    simp only [idxFrom, List.mem_cons] at h
    rcases h with h | h
    · exact ⟨0, by simp [h], by simp [h]⟩
    · obtain ⟨j, hj, hget⟩ := ih h
      exact ⟨j + 1, by omega, by simpa using hget⟩

theorem idxFrom_mem_of_getElem {α : Type} {l : List α} :
    ∀ {n j : Nat} {a : α}, l[j]? = some a → (n + j, a) ∈ idxFrom n l := by
  induction l with
  | nil => intro n j a h; simp at h
  | cons x xs ih =>
    intro n j a h
    cases j with
    | zero => simp at h; simp [idxFrom, h]
    | succ j =>
      simp only [List.getElem?_cons_succ] at h
      have := ih (n := n + 1) h
      simp only [idxFrom, List.mem_cons]
      right
      have : (n + 1 + j, a) ∈ idxFrom (n + 1) xs := this
      simpa [Nat.add_assoc, Nat.add_comm 1 j] using this

theorem idxFrom_lb {α : Type} {l : List α} :
    ∀ {n : Nat} {p : Nat × α}, p ∈ idxFrom n l → n ≤ p.1 := by
  intro n p h
  obtain ⟨j, hj, _⟩ := idxFrom_mem_exists h
  omega

theorem idxFrom_pairwise {α : Type} (l : List α) :
    ∀ n, (idxFrom n l).Pairwise (fun p q => p.1 < q.1) := by
  induction l with
  | nil => intro n; simp [idxFrom]
  | cons a as ih =>
    intro n
    simp only [idxFrom, List.pairwise_cons]
    refine ⟨fun p hp => ?_, ih (n + 1)⟩
    have := idxFrom_lb hp
    omega

theorem idxFrom_map_snd {α : Type} (l : List α) :
    ∀ n, (idxFrom n l).map (fun p => p.2) = l := by
  induction l with
  | nil => intro n; simp [idxFrom]
  | cons a as ih => intro n; simp [idxFrom, ih]

theorem idxFrom_getElem? {α : Type} (l : List α) :
    ∀ (n i : Nat), (idxFrom n l)[i]? = l[i]?.map (fun a => (n + i, a)) := by
  induction l with
  | nil => intro n i; simp [idxFrom]
  | cons a as ih =>
    intro n i
    cases i with
    | zero => simp [idxFrom]
    | succ i =>
      simp only [idxFrom, List.getElem?_cons_succ, ih (n + 1) i]
      cases as[i]? with
      | none => rfl
      | some b => simp [Nat.add_assoc, Nat.add_comm 1 i]

theorem firstMinAux_mem (l : List (Nat × ApiKeyInfo)) :
    ∀ b, firstMinAux b l ∈ b :: l := by
  induction l with
  | nil => intro b; simp [firstMinAux]
  | cons p ps ih =>
    intro b
    simp only [firstMinAux]
    by_cases hc : p.2.active_requests < b.2.active_requests
    · simp only [if_pos hc]
      exact List.mem_cons_of_mem b (ih p)
    · simp only [if_neg hc]
      rcases List.mem_cons.mp (ih b) with h | h
      · simp [h]
      · simp [List.mem_cons, h]

theorem firstMinAux_le (l : List (Nat × ApiKeyInfo)) :
    ∀ b, ∀ p ∈ b :: l, (firstMinAux b l).2.active_requests ≤ p.2.active_requests := by
  induction l with
  | nil => intro b p hp; simp at hp; simp [firstMinAux, hp]
  | cons q qs ih =>
    intro b p hp
    simp only [firstMinAux]
    by_cases hc : q.2.active_requests < b.2.active_requests
    · simp only [if_pos hc]
      rcases List.mem_cons.mp hp with h | h
      · subst h
        have := ih q q (by simp)
        omega
      · exact ih q p h
    · simp only [if_neg hc]
      rcases List.mem_cons.mp hp with h | h
      · rw [h]; exact ih b b (by simp)
      · rcases List.mem_cons.mp h with h2 | h2
        · subst h2
          have := ih b b (by simp)
          omega
        · exact ih b p (by simp [List.mem_cons, h2])

theorem firstMinAux_tie (l : List (Nat × ApiKeyInfo)) :
    ∀ b, (b :: l).Pairwise (fun p q => p.1 < q.1) →
      ∀ p ∈ b :: l, p.2.active_requests = (firstMinAux b l).2.active_requests →
        (firstMinAux b l).1 ≤ p.1 := by
  induction l with
  | nil => intro b _ p hp _; simp at hp; simp [firstMinAux, hp]
  | cons q qs ih =>
    intro b hpw p hp heq
    simp only [firstMinAux] at heq ⊢
    simp only [List.pairwise_cons] at hpw
    obtain ⟨hb, hq, hqs⟩ := hpw
    by_cases hc : q.2.active_requests < b.2.active_requests
    · simp only [if_pos hc] at heq ⊢
      have hpw2 : (q :: qs).Pairwise (fun p q => p.1 < q.1) := List.pairwise_cons.mpr ⟨hq, hqs⟩
      rcases List.mem_cons.mp hp with h | h
      · -- p = b : impossible tie, the minimum is at most q's value, below b's
        subst h
        have := firstMinAux_le qs q q (by simp)
        omega
      · exact ih q hpw2 p h heq
    · simp only [if_neg hc] at heq ⊢
      have hbqs : ∀ r ∈ qs, b.1 < r.1 := fun r hr => hb r (by simp [hr])
      have hpw2 : (b :: qs).Pairwise (fun p q => p.1 < q.1) := List.pairwise_cons.mpr ⟨hbqs, hqs⟩
      rcases List.mem_cons.mp hp with h | h
      · rw [h] at heq ⊢; exact ih b hpw2 b (by simp) heq
      · rcases List.mem_cons.mp h with h2 | h2
        · -- p = q : the minimum's value equals b's value, so it sits at b or earlier
          subst h2
          have hle := firstMinAux_le qs b b (by simp)
          have hbtie : b.2.active_requests = (firstMinAux b qs).2.active_requests := by omega
          have := ih b hpw2 b (by simp) hbtie
          have hbq : b.1 < p.1 := hb p (by simp)
          omega
        · exact ih b hpw2 p (by simp [List.mem_cons, h2]) heq

theorem mem_idxFrom_zero {α : Type} {l : List α} {p : Nat × α} :
    p ∈ idxFrom 0 l ↔ l[p.1]? = some p.2 := by
  constructor
  · intro h
    obtain ⟨j, hj, hget⟩ := idxFrom_mem_exists h
    simpa [hj] using hget
  · intro h
    have := idxFrom_mem_of_getElem (n := 0) h
    simpa using this

theorem poolCands_pairwise (pool : List ApiKeyInfo) :
    (poolCands pool).Pairwise (fun p q => p.1 < q.1) := by
  unfold poolCands
  by_cases hA : ((idxFrom 0 pool).filter (fun q => !q.2.is_blocked)).isEmpty
  · simpa [hA] using idxFrom_pairwise pool 0
  · simp only [hA, if_neg, Bool.false_eq_true, if_false]
    exact List.Pairwise.sublist (List.filter_sublist _) (idxFrom_pairwise pool 0)

theorem mem_poolCands {pool : List ApiKeyInfo} {p : Nat × ApiKeyInfo} :
    p ∈ poolCands pool ↔
      pool[p.1]? = some p.2 ∧
        (pool.any (fun c => !c.is_blocked) = true → p.2.is_blocked = false) := by
  unfold poolCands
  by_cases hA : ((idxFrom 0 pool).filter (fun q => !q.2.is_blocked)).isEmpty
  · -- every credential is blocked; the candidate set is the full pool
    have hall : ∀ q ∈ idxFrom 0 pool, q.2.is_blocked = true := by
      intro q hq
      have := List.filter_eq_nil_iff.mp (List.isEmpty_iff.mp hA) q hq
      simpa using this
    have hany : pool.any (fun c => !c.is_blocked) = false := by
      by_contra hcon
      have : pool.any (fun c => !c.is_blocked) = true := by
        revert hcon; cases pool.any (fun c => !c.is_blocked) <;> simp
      obtain ⟨x, hx, hxb⟩ := List.any_eq_true.mp this
      obtain ⟨j, hj⟩ := List.mem_iff_getElem?.mp hx
      have hmem : ((j, x) : Nat × ApiKeyInfo) ∈ idxFrom 0 pool := mem_idxFrom_zero.mpr hj
      have := hall _ hmem
      simp at hxb
      simp [hxb] at this
    simp only [hA, if_pos, hany, Bool.false_eq_true, false_implies, and_true]
    exact mem_idxFrom_zero
  · -- at least one non-blocked credential exists
    have hne : (idxFrom 0 pool).filter (fun q => !q.2.is_blocked) ≠ [] := by
      intro hnil; rw [hnil] at hA; simp at hA
    have hany : pool.any (fun c => !c.is_blocked) = true := by
      obtain ⟨q, hq⟩ := List.exists_mem_of_ne_nil _ hne
      have hq2 := List.mem_filter.mp hq
      have hget := mem_idxFrom_zero.mp hq2.1
      have hmem : q.2 ∈ pool := by
        have := List.mem_iff_getElem?.mpr ⟨q.1, hget⟩
        exact this
      exact List.any_eq_true.mpr ⟨q.2, hmem, hq2.2⟩
    simp only [hA, Bool.false_eq_true, if_false, List.mem_filter, hany, true_implies,
      mem_idxFrom_zero]
    constructor
    · rintro ⟨h1, h2⟩; exact ⟨h1, by simpa using h2⟩
    · rintro ⟨h1, h2⟩; exact ⟨h1, by simpa using h2⟩

theorem idxFrom_ne_nil {α : Type} {l : List α} (h : l ≠ []) (n : Nat) :
    idxFrom n l ≠ [] := by
  obtain ⟨a, rest, rfl⟩ := List.exists_cons_of_ne_nil h
  simp [idxFrom]

theorem poolCands_ne_nil {pool : List ApiKeyInfo} (h : pool ≠ []) : poolCands pool ≠ [] := by
  unfold poolCands
  by_cases hA : ((idxFrom 0 pool).filter (fun q => !q.2.is_blocked)).isEmpty
  · simpa [hA] using idxFrom_ne_nil h 0
  · simp only [hA, Bool.false_eq_true, if_false]
    exact fun hnil => by rw [hnil] at hA; simp at hA

/-- Full characterisation of `get_available_key` on a non-empty pool:
it returns the key of a candidate credential with minimum `active_requests`
(earliest position among ties) and bumps exactly that credential's
`active_requests` and `total_requests`. -/
theorem get_available_key_spec (pool : List ApiKeyInfo) (hne : pool ≠ []) :
    ∃ i c, pool[i]? = some c ∧
      get_available_key pool =
        some (c.key, pool.set i { c with active_requests := c.active_requests + 1,
                                          total_requests := c.total_requests + 1 }) ∧
      (pool.any (fun k => !k.is_blocked) = true → c.is_blocked = false) ∧
      (∀ (j : Nat) (d : ApiKeyInfo), pool[j]? = some d →
        (pool.any (fun k => !k.is_blocked) = true → d.is_blocked = false) →
        c.active_requests ≤ d.active_requests) ∧
      (∀ (j : Nat) (d : ApiKeyInfo), pool[j]? = some d →
        (pool.any (fun k => !k.is_blocked) = true → d.is_blocked = false) →
        d.active_requests = c.active_requests → i ≤ j) := by
  obtain ⟨c0, cs, hcands⟩ := List.exists_cons_of_ne_nil (poolCands_ne_nil hne)
  have hsel : selectBest (poolCands pool) = some (firstMinAux c0 cs) := by
    rw [hcands]; rfl
  have hmem : firstMinAux c0 cs ∈ poolCands pool := by
    rw [hcands]; exact firstMinAux_mem cs c0
  have hpc := mem_poolCands.mp hmem
  refine ⟨(firstMinAux c0 cs).1, (firstMinAux c0 cs).2, hpc.1, ?_, hpc.2, ?_, ?_⟩
  · unfold get_available_key
    rw [if_neg (by simp [hne]), hsel]
  · intro j d hj hcand
    have hm : ((j, d) : Nat × ApiKeyInfo) ∈ poolCands pool := mem_poolCands.mpr ⟨hj, hcand⟩
    rw [hcands] at hm
    exact firstMinAux_le cs c0 (j, d) hm
  · intro j d hj hcand heq
    have hm : ((j, d) : Nat × ApiKeyInfo) ∈ poolCands pool := mem_poolCands.mpr ⟨hj, hcand⟩
    rw [hcands] at hm
    have hpw := poolCands_pairwise pool
    rw [hcands] at hpw
    exact firstMinAux_tie cs c0 hpw (j, d) hm heq

/-! ### Helper lemmas: pool mutators -/

theorem release_key_not_found {pool : List ApiKeyInfo} {k : String}
    (h : ∀ c ∈ pool, c.key ≠ k) : release_key pool k = pool := by
  induction pool with
  | nil => rfl
  | cons info rest ih =>
    simp only [release_key]
    rw [if_neg (h info (by simp)), ih (fun c hc => h c (by simp [hc]))]

theorem release_key_map_form {pool : List ApiKeyInfo} {k : String} (h : keysNodup pool) :
    release_key pool k =
      pool.map (fun c =>
        if c.key = k then { c with active_requests := max 0 (c.active_requests - 1) } else c) := by
  induction pool with
  | nil => rfl
  | cons info rest ih =>
    have hcons := List.nodup_cons.mp h
    by_cases hk : info.key = k
    · simp only [release_key, if_pos hk, List.map_cons, if_pos hk]
      have hnone : ∀ c ∈ rest, c.key ≠ k := by
        intro c hc hck
        exact hcons.1 (List.mem_map.mpr ⟨c, hc, hck.trans hk.symm⟩)
      have hmap : List.map (fun c =>
          if c.key = k then { c with active_requests := max 0 (c.active_requests - 1) } else c)
            rest = rest := by
        have h1 : ∀ c ∈ rest,
            (if c.key = k then { c with active_requests := max 0 (c.active_requests - 1) } else c)
              = id c :=
          fun c hc => by rw [if_neg (hnone c hc)]; rfl
        rw [List.map_congr_left h1, List.map_id]
      rw [hmap]
    · simp only [release_key, if_neg hk, List.map_cons, if_neg hk, ih hcons.2]

theorem release_key_nonneg {pool : List ApiKeyInfo} {k : String}
    (h : ∀ c ∈ pool, 0 ≤ c.active_requests) :
    ∀ c ∈ release_key pool k, 0 ≤ c.active_requests := by
  induction pool with
  | nil => intro c hc; simp [release_key] at hc
  | cons info rest ih =>
    intro c hc
    simp only [release_key] at hc
    by_cases hk : info.key = k
    · rw [if_pos hk] at hc
      rcases List.mem_cons.mp hc with h2 | h2
      · rw [h2]; exact le_max_left 0 _
      · exact h c (by simp [h2])
    · rw [if_neg hk] at hc
      rcases List.mem_cons.mp hc with h2 | h2
      · rw [h2]; exact h info (by simp)
      · exact ih (fun d hd => h d (by simp [hd])) c h2

theorem mark_key_failed_active (pool : List ApiKeyInfo) (k : String) (b : Bool) :
    (mark_key_failed pool k b).map (fun c => c.active_requests)
      = pool.map (fun c => c.active_requests) := by
  induction pool with
  | nil => rfl
  | cons info rest ih =>
    simp only [mark_key_failed]
    by_cases hk : info.key = k
    · rw [if_pos hk]; simp
    · rw [if_neg hk]; simp [ih]

theorem unblock_key_active (pool : List ApiKeyInfo) (k : String) :
    (unblock_key pool k).map (fun c => c.active_requests)
      = pool.map (fun c => c.active_requests) := by
  induction pool with
  | nil => rfl
  | cons info rest ih =>
    simp only [unblock_key]
    by_cases hk : info.key = k
    · rw [if_pos hk]; simp
    · rw [if_neg hk]; simp [ih]

theorem active_nonneg_of_map_eq {pool pool2 : List ApiKeyInfo}
    (hmap : pool2.map (fun c => c.active_requests) = pool.map (fun c => c.active_requests))
    (h : ∀ c ∈ pool, 0 ≤ c.active_requests) :
    ∀ c ∈ pool2, 0 ≤ c.active_requests := by
  intro c hc
  have : c.active_requests ∈ pool2.map (fun c => c.active_requests) :=
    List.mem_map.mpr ⟨c, hc, rfl⟩
  rw [hmap] at this
  obtain ⟨d, hd, he⟩ := List.mem_map.mp this
  rw [← he]
  exact h d hd

theorem get_available_key_nonneg {pool : List ApiKeyInfo} {key : String}
    {pool2 : List ApiKeyInfo}
    (hget : get_available_key pool = some (key, pool2))
    (h : ∀ c ∈ pool, 0 ≤ c.active_requests) :
    ∀ c ∈ pool2, 0 ≤ c.active_requests := by
  by_cases hne : pool = []
  · subst hne; simp [get_available_key] at hget
  · obtain ⟨i, c, hic, heq, _⟩ := get_available_key_spec pool hne
    rw [heq] at hget
    have hp2 : pool2 = pool.set i { c with active_requests := c.active_requests + 1,
                                            total_requests := c.total_requests + 1 } := by
      injection hget with hg
      injection hg with _ hg2
      exact hg2.symm
    intro d hd
    rw [hp2] at hd
    rcases List.mem_or_eq_of_mem_set hd with h2 | h2
    · exact h d h2
    · rw [h2]
      have : c ∈ pool := List.mem_iff_getElem?.mpr ⟨i, hic⟩
      have := h c this
      simp only []
      omega

/-- Releasing the key that `get_available_key` just bumped restores every
`active_requests` counter (distinct keys, non-negative counters). -/
theorem release_set_restores (pool : List ApiKeyInfo) :
    ∀ (i : Nat) (c c1 : ApiKeyInfo), pool[i]? = some c → c1.key = c.key →
    keysNodup pool → 0 ≤ c.active_requests →
    c1.active_requests = c.active_requests + 1 →
    (release_key (pool.set i c1) c.key).map (fun x => x.active_requests)
      = pool.map (fun x => x.active_requests) := by
  induction pool with
  | nil => intro i c c1 hget; simp at hget
  | cons d rest ih =>
    intro i c c1 hget hkey hnodup h0 hact
    have hcons := List.nodup_cons.mp hnodup
    cases i with
    | zero =>
      have hd : d = c := by simpa using hget
      subst hd
      rw [List.set_cons_zero]
      simp only [release_key, if_pos hkey, List.map_cons]
      have : max 0 (c1.active_requests - 1) = d.active_requests := by omega
      rw [this]
    | succ j =>
      have hget2 : rest[j]? = some c := by simpa using hget
      have hcmem : c ∈ rest := List.mem_iff_getElem?.mpr ⟨j, hget2⟩
      have hd : ¬d.key = c.key := by
        intro hdk
        exact hcons.1 (List.mem_map.mpr ⟨c, hcmem, hdk.symm⟩)
      rw [List.set_cons_succ]
      simp only [release_key, if_neg hd, List.map_cons]
      rw [ih j c c1 hget2 hkey hcons.2 h0 hact]

/-! ### Helper lemmas: chunk ranges of the audio splitter -/

theorem chunkRangesGo_fuel (f t : Nat) :
    ∀ fuel1 fuel2 c, t - c ≤ fuel1 → t - c ≤ fuel2 →
      chunkRangesGo f t fuel1 c = chunkRangesGo f t fuel2 c := by
  intro fuel1
  induction fuel1 with
  | zero =>
    intro fuel2 c h1 h2
    have hct : ¬(c < t ∧ 0 < f) := by omega
    cases fuel2 with
    | zero => rfl
    | succ m => rw [chunkRangesGo.eq_2, if_neg hct]; rfl
  | succ n ih =>
    intro fuel2 c h1 h2
    cases fuel2 with
    | zero =>
      have hct : ¬(c < t ∧ 0 < f) := by omega
      rw [chunkRangesGo.eq_2, if_neg hct]
      rfl
    | succ m =>
      by_cases hct : c < t ∧ 0 < f
      · rw [chunkRangesGo.eq_2, chunkRangesGo.eq_2, if_pos hct, if_pos hct]
        have he : t - min (c + f) t ≤ n := by omega
        have he2 : t - min (c + f) t ≤ m := by omega
        rw [ih m (min (c + f) t) he he2]
      · rw [chunkRangesGo.eq_2, chunkRangesGo.eq_2, if_neg hct, if_neg hct]

theorem chunkRanges_cons {f t c : Nat} (hf : 0 < f) (hc : c < t) :
    chunkRanges f t c = (c, min (c + f) t) :: chunkRanges f t (min (c + f) t) := by
  unfold chunkRanges
  obtain ⟨m, hm⟩ : ∃ m, t - c = m + 1 := ⟨t - c - 1, by omega⟩
  rw [hm, chunkRangesGo.eq_2, if_pos ⟨hc, hf⟩]
  rw [chunkRangesGo_fuel f t m (t - min (c + f) t) (min (c + f) t) (by omega) (by omega)]

theorem chunkRanges_nil {f t c : Nat} (h : ¬(c < t ∧ 0 < f)) :
    chunkRanges f t c = [] := by
  unfold chunkRanges
  cases hm : t - c with
  | zero => rfl
  | succ m => rw [chunkRangesGo.eq_2, if_neg h]

theorem chunkRanges_induct (f t : Nat) (motive : Nat → Prop)
    (case1 : ∀ c, (c < t ∧ 0 < f) → motive (min (c + f) t) → motive c)
    (case2 : ∀ c, ¬(c < t ∧ 0 < f) → motive c) : ∀ c, motive c := by
  have H : ∀ n c, t - c = n → motive c := by
    intro n
    induction n using Nat.strong_induction_on with
    | _ n ih =>
      intro c hn
      by_cases hg : c < t ∧ 0 < f
      · exact case1 c hg (ih (t - min (c + f) t) (by omega) _ rfl)
      · exact case2 c hg
  intro c
  exact H (t - c) c rfl

theorem chunkRanges_ne_nil {f t c : Nat} (hf : 0 < f) (hc : c < t) :
    chunkRanges f t c ≠ [] := by
  rw [chunkRanges_cons hf hc]; simp

theorem chunkRanges_sum (f t : Nat) (hf : 0 < f) :
    ∀ c, c ≤ t → ((chunkRanges f t c).map (fun r => r.2 - r.1)).sum = t - c := by
  intro c
  induction c using chunkRanges_induct f t with
  | case1 c hg ih =>
    intro hc
    rw [chunkRanges_cons hg.2 hg.1]
    simp only [List.map_cons, List.sum_cons]
    have := ih (by omega)
    omega
  | case2 c hg =>
    intro hc
    rw [chunkRanges_nil hg]
    simp
    omega

theorem chunkRanges_head {f t c : Nat} (hf : 0 < f) (hc : c < t) :
    (chunkRanges f t c).head? = some (c, min (c + f) t) := by
  rw [chunkRanges_cons hf hc]; rfl

theorem chunkRanges_chain (f t : Nat) :
    ∀ c, List.Chain' (fun a b => a.2 = b.1) (chunkRanges f t c) := by
  intro c
  induction c using chunkRanges_induct f t with
  | case1 c hg ih =>
    rw [chunkRanges_cons hg.2 hg.1]
    by_cases h2 : min (c + f) t < t
    · rw [chunkRanges_cons hg.2 h2] at ih ⊢
      exact List.Chain'.cons rfl ih
    · rw [chunkRanges_nil (by omega)]
      simp
  | case2 c hg =>
    rw [chunkRanges_nil hg]
    simp

theorem chunkRanges_getLast (f t : Nat) (hf : 0 < f) :
    ∀ c, c < t → ∀ r, (chunkRanges f t c).getLast? = some r → r.2 = t := by
  intro c
  induction c using chunkRanges_induct f t with
  | case1 c hg ih =>
    intro hc r hr
    rw [chunkRanges_cons hg.2 hg.1] at hr
    by_cases h2 : min (c + f) t < t
    · rw [List.getLast?_cons] at hr
      injection hr with hr
      cases hlast : (chunkRanges f t (min (c + f) t)).getLast? with
      | none =>
        exact absurd (List.getLast?_eq_none_iff.mp hlast) (chunkRanges_ne_nil hg.2 h2)
      | some r2 =>
        rw [hlast] at hr
        simp at hr
        rw [← hr]
        exact ih h2 r2 hlast
    · have hmin : min (c + f) t = t := by omega
      rw [chunkRanges_nil (by omega)] at hr
      simp at hr
      rw [← hr, hmin]
  | case2 c hg =>
    intro hc
    exact absurd ⟨hc, hf⟩ hg

theorem chunkRanges_mem_len (f t : Nat) (hf : 0 < f) :
    ∀ c, ∀ r ∈ chunkRanges f t c, 0 < r.2 - r.1 ∧ r.2 - r.1 ≤ f := by
  intro c
  induction c using chunkRanges_induct f t with
  | case1 c hg ih =>
    intro r hr
    rw [chunkRanges_cons hg.2 hg.1] at hr
    rcases List.mem_cons.mp hr with h | h
    · rw [h]; simp; omega
    · exact ih r h
  | case2 c hg =>
    intro r hr
    rw [chunkRanges_nil hg] at hr
    simp at hr

theorem chunkRanges_dropLast (f t : Nat) (hf : 0 < f) :
    ∀ c, ∀ r ∈ (chunkRanges f t c).dropLast, r.2 - r.1 = f := by
  intro c
  induction c using chunkRanges_induct f t with
  | case1 c hg ih =>
    intro r hr
    rw [chunkRanges_cons hg.2 hg.1] at hr
    by_cases h2 : min (c + f) t < t
    · rw [List.dropLast_cons_of_ne_nil (chunkRanges_ne_nil hg.2 h2)] at hr
      rcases List.mem_cons.mp hr with h | h
      · rw [h]; simp; omega
      · exact ih r h
    · rw [chunkRanges_nil (by omega)] at hr
      simp at hr
  | case2 c hg =>
    intro r hr
    rw [chunkRanges_nil hg] at hr
    simp at hr

/-! ### Claims -/

/-- **C3**: for every non-empty pool, `get_available_key` selects, among the
non-blocked credentials — or among all credentials when every credential is
blocked — the credential with minimum `active_requests`, breaking ties by
lowest index, and increments exactly that credential's `active_requests`
and `total_requests` by one each, leaving all other credentials unchanged. -/
theorem c3_acquire_selects_least_loaded (pool : List ApiKeyInfo) (hne : pool ≠ [])
    (hidx : ∀ (j : Nat) (d : ApiKeyInfo), pool[j]? = some d → d.index = j) :
    ∃ i c, pool[i]? = some c ∧
      get_available_key pool =
        some (c.key, pool.set i { c with active_requests := c.active_requests + 1,
                                          total_requests := c.total_requests + 1 }) ∧
      (pool.any (fun k => !k.is_blocked) = true → c.is_blocked = false) ∧
      (∀ (j : Nat) (d : ApiKeyInfo), pool[j]? = some d →
        (pool.any (fun k => !k.is_blocked) = true → d.is_blocked = false) →
        c.active_requests ≤ d.active_requests) ∧
      (∀ (j : Nat) (d : ApiKeyInfo), pool[j]? = some d →
        (pool.any (fun k => !k.is_blocked) = true → d.is_blocked = false) →
        d.active_requests = c.active_requests → c.index ≤ d.index) ∧
      (∀ (j : Nat), j ≠ i →
        (pool.set i { c with active_requests := c.active_requests + 1,
                             total_requests := c.total_requests + 1 })[j]? = pool[j]?) := by
  obtain ⟨i, c, h1, h2, h3, h4, h5⟩ := get_available_key_spec pool hne
  refine ⟨i, c, h1, h2, h3, h4, ?_, ?_⟩
  · intro j d hj hcand heq
    rw [hidx j d hj, hidx i c h1]
    exact h5 j d hj hcand heq
  · intro j hji
    exact List.getElem?_set_ne (Ne.symm hji)

/-- Witness for C3 on `poolMixed`: the selected credential must be `"b"`
(index 1): it is the least-loaded non-blocked credential. -/
theorem c3_witness :
    ∃ i c, poolMixed[i]? = some c ∧
      get_available_key poolMixed =
        some (c.key, poolMixed.set i { c with active_requests := c.active_requests + 1,
                                              total_requests := c.total_requests + 1 }) ∧
      (poolMixed.any (fun k => !k.is_blocked) = true → c.is_blocked = false) ∧
      (∀ (j : Nat) (d : ApiKeyInfo), poolMixed[j]? = some d →
        (poolMixed.any (fun k => !k.is_blocked) = true → d.is_blocked = false) →
        c.active_requests ≤ d.active_requests) ∧
      (∀ (j : Nat) (d : ApiKeyInfo), poolMixed[j]? = some d →
        (poolMixed.any (fun k => !k.is_blocked) = true → d.is_blocked = false) →
        d.active_requests = c.active_requests → c.index ≤ d.index) ∧
      (∀ (j : Nat), j ≠ i →
        (poolMixed.set i { c with active_requests := c.active_requests + 1,
                                  total_requests := c.total_requests + 1 })[j]? = poolMixed[j]?) :=
  c3_acquire_selects_least_loaded poolMixed (by simp [poolMixed])
    (by intro j d hj; rcases j with _ | _ | _ | j <;> simp_all [poolMixed] <;> rw [← hj])

/-- **C5**: `release_key` decrements the matched credential's
`active_requests` floored at 0, is a no-op when the key is absent, and all
four pool operations preserve `active_requests ≥ 0`. -/
theorem c5_release_floor_and_invariants :
    (∀ (pool : List ApiKeyInfo) (k : String),
      (∀ c ∈ pool, c.key ≠ k) → release_key pool k = pool) ∧
    (∀ (pool : List ApiKeyInfo) (k : String), keysNodup pool →
      release_key pool k = pool.map (fun c =>
        if c.key = k then { c with active_requests := max 0 (c.active_requests - 1) }
        else c)) ∧
    (∀ (pool : List ApiKeyInfo), (∀ c ∈ pool, 0 ≤ c.active_requests) →
      (∀ (k : String), ∀ c ∈ release_key pool k, 0 ≤ c.active_requests) ∧
      (∀ (k : String) (b : Bool), ∀ c ∈ mark_key_failed pool k b, 0 ≤ c.active_requests) ∧
      (∀ (k : String), ∀ c ∈ unblock_key pool k, 0 ≤ c.active_requests) ∧
      (∀ (key : String) (pool2 : List ApiKeyInfo),
        get_available_key pool = some (key, pool2) → ∀ c ∈ pool2, 0 ≤ c.active_requests)) := by
  refine ⟨fun pool k h => release_key_not_found h,
          fun pool k h => release_key_map_form h, ?_⟩
  intro pool h
  exact ⟨fun k => release_key_nonneg h,
         fun k b => active_nonneg_of_map_eq (mark_key_failed_active pool k b) h,
         fun k => active_nonneg_of_map_eq (unblock_key_active pool k) h,
         fun key pool2 hget => get_available_key_nonneg hget h⟩

/-- Witness for C5: releasing an absent key on `poolMixed` is a no-op, and
releasing `"a"` twice in a row from load 1 leaves its counter at 0, not -1. -/
theorem c5_witness :
    release_key poolMixed "zzz" = poolMixed ∧
    release_key poolMixed "b" =
      [⟨"a", 0, 2, 5, 0, false⟩, ⟨"b", 1, 0, 4, 0, false⟩, ⟨"c", 2, 1, 3, 0, true⟩] ∧
    release_key (release_key poolMixed "b") "b" =
      [⟨"a", 0, 2, 5, 0, false⟩, ⟨"b", 1, 0, 4, 0, false⟩, ⟨"c", 2, 1, 3, 0, true⟩] := by
  refine ⟨c5_release_floor_and_invariants.1 poolMixed "zzz" (by decide), ?_, ?_⟩
  · rw [c5_release_floor_and_invariants.2.1 poolMixed "b" (by unfold keysNodup; decide)]
    decide
  · rw [c5_release_floor_and_invariants.2.1 poolMixed "b" (by unfold keysNodup; decide)]
    rw [c5_release_floor_and_invariants.2.1 _ "b" (by unfold keysNodup; decide)]
    decide

/-- **C6**: for every source file whose size is at most the threshold —
including zero-length files and files of exactly the threshold size —
`split_audio_file` returns exactly `[audio_file_path]` and writes no chunk
files; splitting happens only for sizes strictly above the threshold. -/
theorem c6_no_split_at_or_below_threshold :
    (∀ (path base_dir base_name : String) (mid : Option String) (size : Nat)
        (params : WavParams), size ≤ MAX_FILE_SIZE_BYTES →
      split_audio_file path base_dir base_name mid size params = ([path], [])) ∧
    (∀ (path base_dir base_name : String) (mid : Option String) (size : Nat)
        (params : WavParams), MAX_FILE_SIZE_BYTES < size →
      0 < frame_byte_size params → frame_byte_size params ≤ bytes_per_chunk →
      0 < params.nframes →
      (split_audio_file path base_dir base_name mid size params).2 ≠ []) := by
  constructor
  · intro path base_dir base_name mid size params h
    unfold split_audio_file
    rw [if_pos h]
  · intro path base_dir base_name mid size params h hfs hle hnf
    unfold split_audio_file
    rw [if_neg (by omega)]
    have hfpc : 0 < bytes_per_chunk / frame_byte_size params := Nat.div_pos hle hfs
    have hr := chunkRanges_ne_nil hfpc hnf
    intro hnil
    simp only [List.map_eq_nil_iff] at hnil
    exact idxFrom_ne_nil hr 0 hnil

/-- Witness for C6: a zero-length file and a file of exactly the threshold
size are both returned unsplit, with no chunk written; a file one byte over
the threshold is split. -/
theorem c6_witness :
    split_audio_file "rec.wav" "/tmp" "rec" none 0 ⟨2, 2, 0⟩ = (["rec.wav"], []) ∧
    split_audio_file "rec.wav" "/tmp" "rec" none MAX_FILE_SIZE_BYTES ⟨2, 2, 5242880⟩
      = (["rec.wav"], []) ∧
    (split_audio_file "rec.wav" "/tmp" "rec" none (MAX_FILE_SIZE_BYTES + 1)
      ⟨2, 2, 5242881⟩).2 ≠ [] :=
  ⟨c6_no_split_at_or_below_threshold.1 "rec.wav" "/tmp" "rec" none 0 ⟨2, 2, 0⟩ (by decide),
   c6_no_split_at_or_below_threshold.1 "rec.wav" "/tmp" "rec" none MAX_FILE_SIZE_BYTES
     ⟨2, 2, 5242880⟩ (by decide),
   c6_no_split_at_or_below_threshold.2 "rec.wav" "/tmp" "rec" none (MAX_FILE_SIZE_BYTES + 1)
     ⟨2, 2, 5242881⟩ (by decide) (by decide) (by decide) (by decide)⟩

theorem idxFrom_map_val {α β : Type} (g : α → β) (l : List α) (n : Nat) :
    (idxFrom n l).map (fun p => g p.2) = l.map g := by
  have h1 : (idxFrom n l).map (fun p => g p.2)
      = ((idxFrom n l).map (fun p => p.2)).map g := by
    rw [List.map_map]
    rfl
  rw [h1, idxFrom_map_snd]

theorem idxFrom_chain' {α : Type} (R : α → α → Prop) (l : List α) (n : Nat) :
    List.Chain' (fun p q => R p.2 q.2) (idxFrom n l) ↔ List.Chain' R l := by
  conv_rhs => rw [← idxFrom_map_snd l n]
  rw [List.chain'_map]

theorem idxFrom_head? {α : Type} (l : List α) (n : Nat) :
    (idxFrom n l).head? = l.head?.map (fun a => (n, a)) := by
  cases l <;> rfl

theorem idxFrom_dropLast {α : Type} (l : List α) :
    ∀ n, (idxFrom n l).dropLast = idxFrom n l.dropLast := by
  induction l with
  | nil => intro n; rfl
  | cons a as ih =>
    intro n
    cases as with
    | nil => rfl
    | cons b bs =>
      simp only [idxFrom, List.dropLast_cons₂]
      exact congrArg (fun t => (n, a) :: t) (ih (n + 1))

/-- **C2**: for every source WAV file strictly above the threshold,
`split_audio_file` emits chunks whose frame ranges partition the source
frames contiguously and exactly (first chunk starts at frame 0, adjacent
chunks meet, the last chunk ends at the frame count, the lengths sum to the
frame count), every chunk except possibly the last holds exactly
`⌊(0.9 × threshold) / (sampwidth × nchannels)⌋` frames, the last chunk is
no longer than that, and the returned list is ordered with sequence
number 1 first (the chunk at position `i` is named with sequence `i+1`). -/
theorem c2_split_partitions_frames (path base_dir base_name : String) (mid : Option String)
    (size : Nat) (params : WavParams)
    (hsize : MAX_FILE_SIZE_BYTES < size) (hfs : 0 < frame_byte_size params)
    (hle : frame_byte_size params ≤ bytes_per_chunk) (hnf : 0 < params.nframes) :
    ∀ chunks, chunks = (split_audio_file path base_dir base_name mid size params).2 →
      (split_audio_file path base_dir base_name mid size params).1
        = chunks.map (fun c => c.path) ∧
      chunks ≠ [] ∧
      (∀ c0, chunks.head? = some c0 → c0.framesStart = 0) ∧
      List.Chain' (fun a b => a.framesEnd = b.framesStart) chunks ∧
      (∀ cl, chunks.getLast? = some cl → cl.framesEnd = params.nframes) ∧
      (chunks.map (fun c => c.framesEnd - c.framesStart)).sum = params.nframes ∧
      (∀ c ∈ chunks.dropLast,
        c.framesEnd - c.framesStart = bytes_per_chunk / frame_byte_size params) ∧
      (∀ c ∈ chunks, 0 < c.framesEnd - c.framesStart ∧
        c.framesEnd - c.framesStart ≤ bytes_per_chunk / frame_byte_size params) ∧
      (∀ (i : Nat) (cl : ChunkFile), chunks[i]? = some cl →
        cl.path = chunkPath base_dir base_name mid (i + 1)) := by
  intro chunks hch
  have hfpc : 0 < bytes_per_chunk / frame_byte_size params := Nat.div_pos hle hfs
  have hC : chunks =
      (idxFrom 0 (chunkRanges (bytes_per_chunk / frame_byte_size params) params.nframes 0)).map
        (fun p => { path := chunkPath base_dir base_name mid (p.1 + 1),
                    framesStart := p.2.1, framesEnd := p.2.2 : ChunkFile }) := by
    rw [hch]
    unfold split_audio_file
    rw [if_neg (by omega)]
  refine ⟨?_, ?_, ?_, ?_, ?_, ?_, ?_, ?_, ?_⟩
  · -- the returned path list is the written chunks' paths, in order
    unfold split_audio_file
    rw [if_neg (by omega), hC]
  · rw [hC]
    intro hnil
    exact idxFrom_ne_nil (chunkRanges_ne_nil hfpc hnf) 0 (List.map_eq_nil_iff.mp hnil)
  · -- the first chunk starts at frame 0
    intro c0 h0
    rw [hC, List.head?_map, idxFrom_head?, chunkRanges_head hfpc hnf] at h0
    simp only [Option.map_some'] at h0
    injection h0 with h0
    rw [← h0]
  · -- adjacent chunks meet exactly
    rw [hC, List.chain'_map]
    exact (idxFrom_chain' (R := fun (a b : Nat × Nat) => a.2 = b.1)
        (chunkRanges (bytes_per_chunk / frame_byte_size params) params.nframes 0) 0).mpr
      (chunkRanges_chain (bytes_per_chunk / frame_byte_size params) params.nframes 0)
  · -- the last chunk ends at the total frame count
    intro cl hlast
    rw [hC, List.getLast?_map] at hlast
    cases hg : (idxFrom 0 (chunkRanges (bytes_per_chunk / frame_byte_size params)
        params.nframes 0)).getLast? with
    | none => rw [hg] at hlast; simp only [Option.map_none'] at hlast; exact absurd hlast (by simp)
    | some p =>
      rw [hg] at hlast
      simp only [Option.map_some'] at hlast
      injection hlast with hlast
      have hr : (chunkRanges (bytes_per_chunk / frame_byte_size params)
          params.nframes 0).getLast? = some p.2 := by
        rw [← idxFrom_map_snd (chunkRanges (bytes_per_chunk / frame_byte_size params)
          params.nframes 0) 0, List.getLast?_map, hg]
        rfl
      have hend := chunkRanges_getLast _ params.nframes hfpc 0 hnf p.2 hr
      rw [← hlast]
      exact hend
  · -- chunk lengths sum to the source frame count
    rw [hC, List.map_map]
    show ((idxFrom 0 (chunkRanges (bytes_per_chunk / frame_byte_size params)
        params.nframes 0)).map
          (fun p => (fun r : Nat × Nat => r.2 - r.1) p.2)).sum = params.nframes
    rw [idxFrom_map_val (fun r : Nat × Nat => r.2 - r.1)]
    have := chunkRanges_sum (bytes_per_chunk / frame_byte_size params) params.nframes hfpc 0
      (by omega)
    simpa using this
  · -- all chunks but the last hold exactly the per-chunk frame count
    intro c hc
    rw [hC, ← List.map_dropLast, idxFrom_dropLast] at hc
    obtain ⟨p, hp, he⟩ := List.mem_map.mp hc
    have hmem : p.2 ∈ (chunkRanges (bytes_per_chunk / frame_byte_size params)
        params.nframes 0).dropLast := by
      have hsnd : p.2 ∈ (idxFrom 0 ((chunkRanges (bytes_per_chunk / frame_byte_size params)
          params.nframes 0).dropLast)).map (fun q => q.2) :=
        List.mem_map.mpr ⟨p, hp, rfl⟩
      rwa [idxFrom_map_snd] at hsnd
    have hlen := chunkRanges_dropLast _ params.nframes hfpc 0 p.2 hmem
    rw [← he]
    exact hlen
  · -- every chunk is non-empty and at most the per-chunk frame count
    intro c hc
    rw [hC] at hc
    obtain ⟨p, hp, he⟩ := List.mem_map.mp hc
    have hmem : p.2 ∈ chunkRanges (bytes_per_chunk / frame_byte_size params)
        params.nframes 0 := by
      have hsnd : p.2 ∈ (idxFrom 0 (chunkRanges (bytes_per_chunk / frame_byte_size params)
          params.nframes 0)).map (fun q => q.2) :=
        List.mem_map.mpr ⟨p, hp, rfl⟩
      rwa [idxFrom_map_snd] at hsnd
    have hlen := chunkRanges_mem_len _ params.nframes hfpc 0 p.2 hmem
    rw [← he]
    exact hlen
  · -- the chunk at position i carries sequence number i + 1
    intro i cl h
    rw [hC, List.getElem?_map, idxFrom_getElem?] at h
    cases hr : (chunkRanges (bytes_per_chunk / frame_byte_size params)
        params.nframes 0)[i]? with
    | none => rw [hr] at h; simp only [Option.map_none'] at h; exact absurd h (by simp)
    | some r =>
      rw [hr] at h
      simp only [Option.map_some'] at h
      injection h with h
      rw [← h]
      simp

/-- Witness for C2: a 52 428 800-byte (≈ 2.5 × threshold) 16-bit stereo
source with 13 107 189 frames splits into three chunks of
4 718 592 + 4 718 592 + 3 670 005 frames, numbered from 001. -/
theorem c2_witness :
    ((split_audio_file "rec.wav" "/tmp" "rec" (some "abcdef") 52428800
        ⟨2, 2, 13107189⟩).2.map (fun c => c.framesEnd - c.framesStart)).sum = 13107189 ∧
    (split_audio_file "rec.wav" "/tmp" "rec" (some "abcdef") 52428800
        ⟨2, 2, 13107189⟩).2.map (fun c => (c.path, c.framesStart, c.framesEnd)) =
      [("/tmp/abcdef_rec_part001.wav", 0, 4718592),
       ("/tmp/abcdef_rec_part002.wav", 4718592, 9437184),
       ("/tmp/abcdef_rec_part003.wav", 9437184, 13107189)] :=
  ⟨(c2_split_partitions_frames "rec.wav" "/tmp" "rec" (some "abcdef") 52428800
      ⟨2, 2, 13107189⟩ (by decide) (by decide) (by decide) (by decide)
      _ rfl).2.2.2.2.2.1,
   by decide⟩

/-- **C7 counterexample**: the assembled transcript for `["A","B","C"]`
contains no `--- Part N ---` header: the source writes the Russian header
`--- Часть N ---` instead, so the claim's literal header never occurs. -/
theorem c7_counterexample :
    mergeTranscriptions ["A", "B", "C"]
      = "--- Часть 1 ---\n\nA\n\n--- Часть 2 ---\n\nB\n\n--- Часть 3 ---\n\nC" ∧
    containsStr (mergeTranscriptions ["A", "B", "C"]) "--- Part 1 ---" = false ∧
    containsStr (mergeTranscriptions ["A", "B", "C"]) "--- Part " = false := by
  decide

theorem joinParts_eq_specFrom :
    ∀ (ts : List String) (k : Nat),
      joinStrings ((idxFrom k ts).map (fun p =>
        if p.1 = 0 then "--- Часть " ++ toString (p.1 + 1) ++ " ---\n\n" ++ p.2
        else "\n\n--- Часть " ++ toString (p.1 + 1) ++ " ---\n\n" ++ p.2))
      = specAssembleFrom (k + 1) ts := by
  intro ts
  induction ts with
  | nil => intro k; rfl
  | cons t rest ih =>
    intro k
    have e1 : ("\n\n--- Часть " : String) = "\n\n" ++ "--- Часть " := by decide
    have e2 : (" ---\n\n" : String) = " ---" ++ "\n\n" := by decide
    simp only [idxFrom, List.map_cons, joinStrings, specAssembleFrom]
    rw [ih (k + 1)]
    by_cases hk : k = 0
    · subst hk
      simp only [Nat.zero_add]
      rw [e2]
      simp [partHeader, String.append_assoc, String.empty_append]
    · have hk1 : ¬(k + 1 = 1) := by omega
      simp only [if_neg hk, if_neg hk1]
      rw [e1, e2]
      simp only [partHeader, String.append_assoc]

/-- **C7 (amended)**: the assembler returns a single element unchanged and,
for every list with more than one element, returns the concatenation in the
given order with a `--- Часть N ---` header (the code's Russian spelling of
`--- Part N ---`) preceding each part, numbered from 1 — stated as equality
with the spec-side refinement target `specAssembleFrom` — so for
`["A","B","C"]` the three headers appear numbered 1, 2, 3 in order with
`"A"`, `"B"`, `"C"` in that order. -/
theorem c7_merge_parts_russian_headers :
    (∀ t, mergeTranscriptions [t] = t) ∧
    mergeTranscriptions [] = "" ∧
    (∀ ts, 1 < ts.length → mergeTranscriptions ts = specAssembleFrom 1 ts) ∧
    (∀ a b c, mergeTranscriptions [a, b, c]
      = "--- Часть 1 ---\n\n" ++ a ++ "\n\n--- Часть 2 ---\n\n" ++ b
        ++ "\n\n--- Часть 3 ---\n\n" ++ c) ∧
    containsInOrderStr (mergeTranscriptions ["A", "B", "C"])
      ["--- Часть 1 ---", "A", "--- Часть 2 ---", "B", "--- Часть 3 ---", "C"] = true := by
  refine ⟨fun t => rfl, rfl, ?_, ?_, by decide⟩
  · intro ts hlen
    unfold mergeTranscriptions
    rw [if_pos hlen]
    exact joinParts_eq_specFrom ts 0
  · intro a b c
    have h0 : mergeTranscriptions [a, b, c]
        = ("--- Часть " ++ toString 1 ++ " ---\n\n" ++ a)
          ++ (("\n\n--- Часть " ++ toString 2 ++ " ---\n\n" ++ b)
            ++ (("\n\n--- Часть " ++ toString 3 ++ " ---\n\n" ++ c) ++ "")) := rfl
    have e1 : ("--- Часть " ++ toString 1 ++ " ---\n\n" : String) = "--- Часть 1 ---\n\n" := by
      decide
    have e2 : ("\n\n--- Часть " ++ toString 2 ++ " ---\n\n" : String)
        = "\n\n--- Часть 2 ---\n\n" := by decide
    have e3 : ("\n\n--- Часть " ++ toString 3 ++ " ---\n\n" : String)
        = "\n\n--- Часть 3 ---\n\n" := by decide
    rw [h0, e1, e2, e3]
    simp [String.append_assoc, String.append_empty]

/-- Witness for C7 (amended) at concrete transcripts, including a
two-element list settled by the general conjunct. -/
theorem c7_witness :
    mergeTranscriptions ["X"] = "X" ∧
    mergeTranscriptions ["A", "B"] = specAssembleFrom 1 ["A", "B"] ∧
    specAssembleFrom 1 ["A", "B"] = "--- Часть 1 ---\n\nA\n\n--- Часть 2 ---\n\nB" ∧
    mergeTranscriptions ["A", "B", "C"]
      = "--- Часть 1 ---\n\n" ++ "A" ++ "\n\n--- Часть 2 ---\n\n" ++ "B"
        ++ "\n\n--- Часть 3 ---\n\n" ++ "C" :=
  ⟨c7_merge_parts_russian_headers.1 "X",
   c7_merge_parts_russian_headers.2.2.1 ["A", "B"] (by decide),
   by decide,
   c7_merge_parts_russian_headers.2.2.2.1 "A" "B" "C"⟩

/-- **C8**: with `is_multipart = true` the report prompt contains the
explicit instruction that the transcript is multiple chronological parts of
one meeting and that a single unified report must be produced; with
`is_multipart = false` the note is absent and the remainder of the prompt
(head with language name, template, transcription) is identical. -/
theorem c8_multipart_prompt_note :
    (∀ transcription template language,
      reportPrompt transcription template language true
        = reportPromptHead language ++ multipartNote true
            ++ reportPromptTail transcription template ∧
      reportPrompt transcription template language false
        = reportPromptHead language ++ reportPromptTail transcription template) ∧
    multipartNote false = "" ∧
    containsStr (multipartNote true)
      "состоит из нескольких частей одного совещания" = true ∧
    containsStr (multipartNote true)
      "объединенных в хронологическом порядке" = true ∧
    containsStr (multipartNote true) "Создай единый отчет" = true := by
  refine ⟨?_, rfl, by decide, by decide, by decide⟩
  intro transcription template language
  constructor
  · simp only [reportPrompt, reportPromptHead, reportPromptTail, String.append_assoc]
  · simp only [reportPrompt, reportPromptHead, reportPromptTail, multipartNote,
      if_neg Bool.false_ne_true, String.append_empty, String.append_assoc]

/-- Witness for C8 at concrete arguments. -/
theorem c8_witness :
    reportPrompt "TR" "TPL" "ru" true
      = reportPromptHead "ru" ++ multipartNote true ++ reportPromptTail "TR" "TPL" ∧
    reportPrompt "TR" "TPL" "ru" false
      = reportPromptHead "ru" ++ reportPromptTail "TR" "TPL" :=
  (c8_multipart_prompt_note.1 "TR" "TPL" "ru")

/-- **C9**: `acquire_key` releases the acquired credential on every exit
path of the wrapped body — normal return and raised exception/cancellation
alike — and, when no credential can be produced, raises
`ApiKeyNotFoundException` without any release; wrapping a body that leaves
the pool alone therefore leaves every `active_requests` counter unchanged,
whatever the body's outcome. -/
theorem c9_scoped_release_on_all_paths {α : Type} :
    (∀ (body : String → List ApiKeyInfo → BodyOutcome α × List ApiKeyInfo),
      acquire_key_run [] body = (.noKey, [])) ∧
    (∀ pool (body : String → List ApiKeyInfo → BodyOutcome α × List ApiKeyInfo) key pool1,
      get_available_key pool = some (key, pool1) → key ≠ "" →
      acquire_key_run pool body
        = (.completed (body key pool1).1, release_key (body key pool1).2 key)) ∧
    (∀ pool (out : BodyOutcome α), pool ≠ [] → keysNodup pool →
      ("" : String) ∉ pool.map (fun c => c.key) →
      (∀ c ∈ pool, 0 ≤ c.active_requests) →
      ((acquire_key_run pool (fun _ p => (out, p))).2).map (fun c => c.active_requests)
        = pool.map (fun c => c.active_requests)) := by
  refine ⟨fun body => rfl, ?_, ?_⟩
  · intro pool body key pool1 hget hkey
    have hred : acquire_key_run pool body
        = if key = "" then (.noKey, pool1)
          else (.completed (body key pool1).1, release_key (body key pool1).2 key) := by
      unfold acquire_key_run
      rw [hget]
    rw [hred, if_neg hkey]
  · intro pool out hne hnodup hnoempty hpos
    obtain ⟨i, c, hget, heq, _, _, _⟩ := get_available_key_spec pool hne
    have hcmem : c ∈ pool := List.mem_iff_getElem?.mpr ⟨i, hget⟩
    have hkey : c.key ≠ "" := fun h0 => hnoempty (List.mem_map.mpr ⟨c, hcmem, h0⟩)
    have hred : acquire_key_run pool (fun _ p => ((out : BodyOutcome α), p))
        = if c.key = "" then (.noKey, pool.set i
            { c with active_requests := c.active_requests + 1,
                     total_requests := c.total_requests + 1 })
          else (.completed out, release_key (pool.set i
            { c with active_requests := c.active_requests + 1,
                     total_requests := c.total_requests + 1 }) c.key) := by
      unfold acquire_key_run
      rw [heq]
    rw [hred, if_neg hkey]
    exact release_set_restores pool i c _ hget rfl hnodup (hpos c hcmem) rfl

/-- Witness for C9: an empty pool raises without releasing; a body modelling
an exception/cancellation on `poolThree` still leaves all `active_requests`
counters as they were. -/
theorem c9_witness :
    acquire_key_run ([] : List ApiKeyInfo)
      (fun _ p => (BodyOutcome.normal "r", p)) = (.noKey, []) ∧
    ((acquire_key_run poolThree
        (fun _ p => ((BodyOutcome.raised "cancelled" : BodyOutcome String), p))).2).map
          (fun c => c.active_requests)
      = poolThree.map (fun c => c.active_requests) :=
  ⟨c9_scoped_release_on_all_paths.1 (fun _ p => (BodyOutcome.normal "r", p)),
   c9_scoped_release_on_all_paths.2.2 poolThree (BodyOutcome.raised "cancelled" : BodyOutcome String)
     (by simp [poolThree]) (by unfold keysNodup; decide) (by decide) (by decide)⟩

/-- **C1 counterexample**: with one credential, three attempts and a 500
response, `_make_request` does NOT fail immediately with the request error:
the `ApiRequestException` is caught by the retry loop, attempts 2 and 3 are
consumed (sleeping), and the call ends with the generic `ApiException`
wrapping the last exception. -/
theorem c1_counterexample :
    (make_request cfgThree poolOne respServerErr).1
      = .error (.exhausted (.requestErr "Ошибка API: boom")) ∧
    (make_request cfgThree poolOne respServerErr).1
      ≠ .error (.requestErr "Ошибка API: boom") ∧
    (make_request cfgThree poolOne respServerErr).2.events
      = [.acquired "k1", .httpCall "k1", .markFailed "k1" false, .released "k1", .slept 1000,
         .acquired "k1", .slept 2000, .released "k1",
         .acquired "k1", .slept 3000, .released "k1"] := by
  decide

/-- **C1 (amended)**: on an HTTP status ≥ 400 other than 429 the pipeline
calls `mark_key_failed(key, block_temporarily=false)` and raises
`ApiRequestException` carrying the provider's error message — but the
exception is caught by the retry loop: when attempts remain the pipeline
sleeps `baseDelay × attempt` and continues with the next attempt (recording
it as `last_exception`); only on the final attempt does the
`ApiRequestException` propagate to the caller. -/
theorem c1_http_error_marks_failed_and_is_retried (cfg : PipelineConfig)
    (responses : Nat → HttpAttemptResult)
    (r attempt : Nat) (st : RunState) (key : String) (pool1 : List ApiKeyInfo)
    (status : Nat) (emsg payload : String)
    (hget : get_available_key st.pool = some (key, pool1)) (hkey : key ≠ "")
    (hused : st.used_keys.contains key = false)
    (hresp : responses st.http_count = .response status emsg payload)
    (h429 : status ≠ 429) (h400 : 400 ≤ status) :
    runAttempts cfg responses (r + 1) attempt st =
      if r = 0 then
        (.error (.requestErr ("Ошибка API: " ++ emsg)),
          ⟨release_key (mark_key_failed pool1 key false) key,
           st.used_keys ++ [key], st.http_count + 1,
           st.events ++ [.acquired key, .httpCall key, .markFailed key false, .released key],
           .requestErr ("Ошибка API: " ++ emsg)⟩)
      else
        runAttempts cfg responses r (attempt + 1)
          ⟨release_key (mark_key_failed pool1 key false) key,
           st.used_keys ++ [key], st.http_count + 1,
           st.events ++ [.acquired key, .httpCall key, .markFailed key false, .released key,
             .slept (cfg.retry_delay_ms * (attempt + 1))],
           .requestErr ("Ошибка API: " ++ emsg)⟩ := by
  rw [runAttempts.eq_2]
  rw [hget]
  simp only [if_neg hkey, hused, Bool.false_eq_true, if_false, hresp,
    if_neg h429, if_pos h400, List.append_assoc, List.singleton_append, List.cons_append,
    List.nil_append]

/-- Witness for C1 (amended): the first 500 answer on the single-credential
pool is marked failed and retried, not surfaced. -/
theorem c1_witness :
    runAttempts cfgThree respServerErr 3 0 ⟨poolOne, [], 0, [], .noExc⟩
      = runAttempts cfgThree respServerErr 2 1
          ⟨[⟨"k1", 0, 0, 1, 1, false⟩], ["k1"], 1,
           [.acquired "k1", .httpCall "k1", .markFailed "k1" false, .released "k1",
            .slept 1000],
           .requestErr ("Ошибка API: " ++ "boom")⟩ := by
  rw [c1_http_error_marks_failed_and_is_retried cfgThree respServerErr 2 0
    ⟨poolOne, [], 0, [], .noExc⟩ "k1" [⟨"k1", 0, 1, 1, 0, false⟩] 500 "boom" ""
    (by decide) (by decide) (by decide) (by decide) (by decide) (by decide)]
  decide

/-- **C4**: an HTTP attempt answering 429 triggers
`mark_key_failed(key, block_temporarily=true)`; with attempts remaining the
pipeline sleeps `baseDelay × attempt` and retries with a fresh acquire,
otherwise it fails with `ApiRateLimitException`; a successful attempt calls
`unblock_key` on the credential used and returns the payload; and the
concrete `maxAttempts = 3` run over three credentials that sees 429, 429,
success returns the payload with the final credential not blocked. -/
theorem c4_rate_limit_retry_and_unblock :
    (∀ (cfg : PipelineConfig) (responses : Nat → HttpAttemptResult)
        (r attempt : Nat) (st : RunState) (key : String) (pool1 : List ApiKeyInfo)
        (emsg payload : String),
      get_available_key st.pool = some (key, pool1) → key ≠ "" →
      st.used_keys.contains key = false →
      responses st.http_count = .response 429 emsg payload →
      runAttempts cfg responses (r + 1) attempt st =
        if r = 0 then
          (.error (.rateLimit "Превышен лимит запросов к OpenAI API"),
            ⟨release_key (mark_key_failed pool1 key true) key,
             st.used_keys ++ [key], st.http_count + 1,
             st.events ++ [.acquired key, .httpCall key, .markFailed key true, .released key],
             .rateLimit "Превышен лимит запросов к OpenAI API"⟩)
        else
          runAttempts cfg responses r (attempt + 1)
            ⟨release_key (mark_key_failed pool1 key true) key,
             st.used_keys ++ [key], st.http_count + 1,
             st.events ++ [.acquired key, .httpCall key, .markFailed key true,
               .slept (cfg.retry_delay_ms * (attempt + 1)), .released key],
             st.last_exception⟩) ∧
    (∀ (cfg : PipelineConfig) (responses : Nat → HttpAttemptResult)
        (r attempt : Nat) (st : RunState) (key : String) (pool1 : List ApiKeyInfo)
        (status : Nat) (emsg payload : String),
      get_available_key st.pool = some (key, pool1) → key ≠ "" →
      st.used_keys.contains key = false →
      responses st.http_count = .response status emsg payload →
      status ≠ 429 → status < 400 →
      runAttempts cfg responses (r + 1) attempt st =
        (.ok payload,
          ⟨release_key (unblock_key pool1 key) key,
           st.used_keys ++ [key], st.http_count + 1,
           st.events ++ [.acquired key, .httpCall key, .unblocked key, .released key],
           st.last_exception⟩)) ∧
    (make_request cfgThree poolThree respTwo429ThenOk).1 = .ok "payload" ∧
    (make_request cfgThree poolThree respTwo429ThenOk).2.events
      = [.acquired "k1", .httpCall "k1", .markFailed "k1" true, .slept 1000, .released "k1",
         .acquired "k2", .httpCall "k2", .markFailed "k2" true, .slept 2000, .released "k2",
         .acquired "k3", .httpCall "k3", .unblocked "k3", .released "k3"] ∧
    (make_request cfgThree poolThree respTwo429ThenOk).2.pool
      = [⟨"k1", 0, 0, 1, 1, true⟩, ⟨"k2", 1, 0, 1, 1, true⟩, ⟨"k3", 2, 0, 1, 0, false⟩] := by
  refine ⟨?_, ?_, by decide, by decide, by decide⟩
  · intro cfg responses r attempt st key pool1 emsg payload hget hkey hused hresp
    rw [runAttempts.eq_2]
    rw [hget]
    simp only [if_neg hkey, hused, Bool.false_eq_true, if_false, hresp,
      if_pos rfl, eq_self_iff_true, if_true, List.append_assoc, List.singleton_append,
      List.cons_append, List.nil_append]
  · intro cfg responses r attempt st key pool1 status emsg payload hget hkey hused hresp
      h429 h400
    rw [runAttempts.eq_2]
    rw [hget]
    simp only [if_neg hkey, hused, Bool.false_eq_true, if_false, hresp,
      if_neg h429, if_neg (by omega : ¬(400 ≤ status)), List.append_assoc,
      List.singleton_append, List.cons_append, List.nil_append]

/-- Witness for C4: the success step at the third attempt of the scenario
unblocks and releases the used credential and returns the payload. -/
theorem c4_witness :
    runAttempts cfgThree respTwo429ThenOk 1 2
        ⟨poolThree, [], 2, [], .noExc⟩
      = (.ok "payload",
         ⟨[⟨"k1", 0, 0, 1, 0, false⟩, ⟨"k2", 1, 0, 0, 0, false⟩, ⟨"k3", 2, 0, 0, 0, false⟩],
          ["k1"], 3,
          [.acquired "k1", .httpCall "k1", .unblocked "k1", .released "k1"], .noExc⟩) := by
  rw [c4_rate_limit_retry_and_unblock.2.1 cfgThree respTwo429ThenOk 0 2
    ⟨poolThree, [], 2, [], .noExc⟩ "k1"
    [⟨"k1", 0, 1, 1, 0, false⟩, ⟨"k2", 1, 0, 0, 0, false⟩, ⟨"k3", 2, 0, 0, 0, false⟩]
    200 "" "payload" (by decide) (by decide) (by decide) (by decide) (by decide) (by decide)]
  decide

theorem httpKeys_append (l1 l2 : List PoolEvent) :
    httpKeys (l1 ++ l2) = httpKeys l1 ++ httpKeys l2 :=
  List.filterMap_append l1 l2 _

theorem httpKeys_nil : httpKeys [] = [] := rfl

theorem httpKeys_cons_acquired (k : String) (l : List PoolEvent) :
    httpKeys (.acquired k :: l) = httpKeys l := rfl

theorem httpKeys_cons_slept (ms : Nat) (l : List PoolEvent) :
    httpKeys (.slept ms :: l) = httpKeys l := rfl

theorem httpKeys_cons_httpCall (k : String) (l : List PoolEvent) :
    httpKeys (.httpCall k :: l) = k :: httpKeys l := rfl

theorem httpKeys_cons_markFailed (k : String) (b : Bool) (l : List PoolEvent) :
    httpKeys (.markFailed k b :: l) = httpKeys l := rfl

theorem httpKeys_cons_unblocked (k : String) (l : List PoolEvent) :
    httpKeys (.unblocked k :: l) = httpKeys l := rfl

theorem httpKeys_cons_released (k : String) (l : List PoolEvent) :
    httpKeys (.released k :: l) = httpKeys l := rfl

theorem runAttempts_used_inv (cfg : PipelineConfig) (responses : Nat → HttpAttemptResult) :
    ∀ (r attempt : Nat) (st : RunState),
      httpKeys st.events = st.used_keys → st.used_keys.Nodup →
      httpKeys ((runAttempts cfg responses r attempt st).2).events
        = ((runAttempts cfg responses r attempt st).2).used_keys ∧
      ((runAttempts cfg responses r attempt st).2).used_keys.Nodup := by
  intro r
  induction r with
  | zero => intro attempt st h1 h2; exact ⟨h1, h2⟩
  | succ r ih =>
    intro attempt st h1 h2
    rw [runAttempts.eq_2]
    cases hget : get_available_key st.pool with
    | none => exact ⟨h1, h2⟩
    | some kp =>
      obtain ⟨key, pool1⟩ := kp
      simp only []
      by_cases hkey : key = ""
      · simp only [if_pos hkey]
        constructor
        · simp [httpKeys_append, httpKeys_nil, httpKeys_cons_acquired, httpKeys_cons_slept, httpKeys_cons_httpCall, httpKeys_cons_markFailed, httpKeys_cons_unblocked, httpKeys_cons_released, h1]
        · exact h2
      · simp only [if_neg hkey]
        by_cases hused : st.used_keys.contains key = true
        · simp only [hused, if_true]
          exact ih (attempt + 1) _ (by simp [httpKeys_append, httpKeys_nil, httpKeys_cons_acquired, httpKeys_cons_slept, httpKeys_cons_httpCall, httpKeys_cons_markFailed, httpKeys_cons_unblocked, httpKeys_cons_released, h1]) h2
        · have husedf : st.used_keys.contains key = false := by
            revert hused; cases st.used_keys.contains key <;> simp
          have hnm : key ∉ st.used_keys := by simpa using husedf
          have hnodup2 : (st.used_keys ++ [key]).Nodup := by
            simp [List.nodup_append, h2, hnm]
          simp only [husedf, Bool.false_eq_true, if_false]
          cases hres : responses st.http_count with
          | clientError msg =>
            simp only []
            by_cases hr : r = 0
            · simp only [hr, if_pos rfl]
              constructor
              · simp [httpKeys_append, httpKeys_nil, httpKeys_cons_acquired, httpKeys_cons_slept, httpKeys_cons_httpCall, httpKeys_cons_markFailed, httpKeys_cons_unblocked, httpKeys_cons_released, h1]
              · exact hnodup2
            · simp only [if_neg hr]
              exact ih (attempt + 1) _ (by simp [httpKeys_append, httpKeys_nil, httpKeys_cons_acquired, httpKeys_cons_slept, httpKeys_cons_httpCall, httpKeys_cons_markFailed, httpKeys_cons_unblocked, httpKeys_cons_released, h1]) hnodup2
          | response status emsg payload =>
            simp only []
            by_cases h429 : status = 429
            · simp only [if_pos h429]
              by_cases hr : r = 0
              · simp only [hr, if_pos rfl]
                constructor
                · simp [httpKeys_append, httpKeys_nil, httpKeys_cons_acquired, httpKeys_cons_slept, httpKeys_cons_httpCall, httpKeys_cons_markFailed, httpKeys_cons_unblocked, httpKeys_cons_released, h1]
                · exact hnodup2
              · simp only [if_neg hr]
                exact ih (attempt + 1) _ (by simp [httpKeys_append, httpKeys_nil, httpKeys_cons_acquired, httpKeys_cons_slept, httpKeys_cons_httpCall, httpKeys_cons_markFailed, httpKeys_cons_unblocked, httpKeys_cons_released, h1]) hnodup2
            · simp only [if_neg h429]
              by_cases h400 : 400 ≤ status
              · simp only [if_pos h400]
                by_cases hr : r = 0
                · simp only [hr, if_pos rfl]
                  constructor
                  · simp [httpKeys_append, httpKeys_nil, httpKeys_cons_acquired, httpKeys_cons_slept, httpKeys_cons_httpCall, httpKeys_cons_markFailed, httpKeys_cons_unblocked, httpKeys_cons_released, h1]
                  · exact hnodup2
                · simp only [if_neg hr]
                  exact ih (attempt + 1) _ (by simp [httpKeys_append, httpKeys_nil, httpKeys_cons_acquired, httpKeys_cons_slept, httpKeys_cons_httpCall, httpKeys_cons_markFailed, httpKeys_cons_unblocked, httpKeys_cons_released, h1]) hnodup2
              · simp only [if_neg h400]
                constructor
                · simp [httpKeys_append, httpKeys_nil, httpKeys_cons_acquired, httpKeys_cons_slept, httpKeys_cons_httpCall, httpKeys_cons_markFailed, httpKeys_cons_unblocked, httpKeys_cons_released, h1]
                · exact hnodup2

/-- **C10**: within one `_make_request` call no credential string is used
for more than one HTTP attempt (the keys of the `httpCall` events are
exactly `used_keys`, which is duplicate-free); an attempt whose acquired
key was already used is consumed by sleeping only — no HTTP call, no
`mark_key_failed`, no `unblock_key` — and with a single credential, after
one failed HTTP attempt every remaining attempt performs no request and the
call ends with the generic `ApiException` (here with `last_exception` still
`None`, since the lone 429 was consumed by `continue`), not the specific
rate-limit or request error. -/
theorem c10_no_key_reuse_within_call :
    (∀ (cfg : PipelineConfig) (responses : Nat → HttpAttemptResult) (pool : List ApiKeyInfo),
      httpKeys ((make_request cfg pool responses).2).events
        = ((make_request cfg pool responses).2).used_keys ∧
      ((make_request cfg pool responses).2).used_keys.Nodup) ∧
    (∀ (cfg : PipelineConfig) (responses : Nat → HttpAttemptResult)
        (r attempt : Nat) (st : RunState) (key : String) (pool1 : List ApiKeyInfo),
      get_available_key st.pool = some (key, pool1) → key ≠ "" →
      st.used_keys.contains key = true →
      runAttempts cfg responses (r + 1) attempt st
        = runAttempts cfg responses r (attempt + 1)
            ⟨release_key pool1 key, st.used_keys, st.http_count,
             st.events ++ [.acquired key, .slept (cfg.retry_delay_ms * (attempt + 1)),
               .released key],
             st.last_exception⟩) ∧
    (make_request cfgThree poolOne respAlways429).1 = .error (.exhausted .noExc) ∧
    (make_request cfgThree poolOne respAlways429).1
      ≠ .error (.rateLimit "Превышен лимит запросов к OpenAI API") ∧
    (make_request cfgThree poolOne respAlways429).2.http_count = 1 ∧
    (make_request cfgThree poolOne respAlways429).2.events
      = [.acquired "k1", .httpCall "k1", .markFailed "k1" true, .slept 1000, .released "k1",
         .acquired "k1", .slept 2000, .released "k1",
         .acquired "k1", .slept 3000, .released "k1"] := by
  refine ⟨?_, ?_, by decide, by decide, by decide, by decide⟩
  · intro cfg responses pool
    exact runAttempts_used_inv cfg responses cfg.retry_attempts 0
      ⟨pool, [], 0, [], .noExc⟩ rfl List.nodup_nil
  · intro cfg responses r attempt st key pool1 hget hkey hused
    rw [runAttempts.eq_2]
    rw [hget]
    simp only [if_neg hkey, hused, if_true, List.append_assoc, List.singleton_append,
      List.cons_append, List.nil_append]

/-- Witness for C10: a second acquire of the already-used single credential
is consumed by sleeping only, performing no HTTP call. -/
theorem c10_witness :
    runAttempts cfgThree respAlways429 1 1
        ⟨poolOne, ["k1"], 1,
         [.acquired "k1", .httpCall "k1", .markFailed "k1" true, .slept 1000, .released "k1"],
         .noExc⟩
      = runAttempts cfgThree respAlways429 0 2
          ⟨[⟨"k1", 0, 0, 1, 0, false⟩], ["k1"], 1,
           [.acquired "k1", .httpCall "k1", .markFailed "k1" true, .slept 1000, .released "k1",
            .acquired "k1", .slept 2000, .released "k1"],
           .noExc⟩ := by
  rw [c10_no_key_reuse_within_call.2.1 cfgThree respAlways429 0 1
    ⟨poolOne, ["k1"], 1,
     [.acquired "k1", .httpCall "k1", .markFailed "k1" true, .slept 1000, .released "k1"],
     .noExc⟩ "k1" [⟨"k1", 0, 1, 1, 0, false⟩] (by decide) (by decide) (by decide)]
  decide
